import Mathlib

/-!
Verification of the lego-bot-uk event pipeline (`src/bot.py`).

The development shallowly embeds the core of the program:
* the Event record and the catalog (a Python dict modelled as an
  insertion-ordered association list),
* the calendar encoder `create_ics_file` (single event) and
  `export_all_events` (batch),
* the scraping parser/classifier `scrape_lego_news` (per-block body
  modelled by `parseArticle`),
* the deduplicating merge performed by `auto_scrape_task`
  (modelled by `merge`).

Machine-level library calls are modelled explicitly:
* `fromisoformat` models `datetime.fromisoformat` on calendar
  date / date-time strings,
* `natRepr` models the decimal rendering of an integer used by the
  f-string `auto_...`,
* `searchDate` models `re.search` for the fixed date pattern
  (1-2 digit day, full English month name, optional 4-digit year,
  case-insensitive, leftmost match with the usual greedy backtracking).
-/

namespace LegoBot

/-- An event record, mirroring the dict built in `scrape_lego_news` and
completed by `auto_scrape_task` (`id` / `created_at` are absent on fresh
candidates). -/
structure Event where
  id : Option String
  title : String
  location : String
  date : String
  date_display : String
  store : String
  description : String
  source : String
  url : String
  created_at : Option String
deriving DecidableEq, Repr

/-- The persisted catalog: a Python dict from id to event, modelled as an
insertion-ordered association list (Python dicts preserve insertion
order; assigning to an existing key replaces the value in place). -/
abbrev Catalog := List (String × Event)

/-- Python dict assignment `d[k] = v`: replace in place when the key is
present, otherwise append at the end. -/
def dictInsert (cat : Catalog) (k : String) (v : Event) : Catalog :=
  if cat.any (fun p => p.1 == k) then
    cat.map (fun p => if p.1 == k then (k, v) else p)
  else
    cat ++ [(k, v)]

/-- The set of titles of the catalog values (`existing_titles`). -/
def titlesOf (cat : Catalog) : List String :=
  cat.map (fun p => p.2.title)

/-- Key membership in the catalog. -/
def keyMem (cat : Catalog) (k : String) : Prop :=
  ∃ p ∈ cat, p.1 = k

instance (cat : Catalog) (k : String) : Decidable (keyMem cat k) := by
  unfold keyMem; infer_instance

/-! ### Dates and the model of `datetime.fromisoformat` -/

/-- A naive Python datetime (no timezone attached). -/
structure PyDateTime where
  year : Nat
  month : Nat
  day : Nat
  hour : Nat
  minute : Nat
  second : Nat
deriving DecidableEq, Repr

/-- A timezone-aware datetime, as produced by `pytz`'s `localize`:
the wall-clock fields plus the zone name. -/
structure AwareDateTime where
  dt : PyDateTime
  tz : String
deriving DecidableEq, Repr

/-- Gregorian leap year. -/
def isLeap (y : Nat) : Bool :=
  (y % 4 == 0 && y % 100 != 0) || y % 400 == 0

/-- Days in a month. -/
def daysInMonth (y m : Nat) : Nat :=
  if m == 2 then (if isLeap y then 29 else 28)
  else if m == 4 || m == 6 || m == 9 || m == 11 then 30
  else 31

/-- Value of a decimal digit character. -/
def digitVal (c : Char) : Nat := c.toNat - 48

/-- Model of `datetime.fromisoformat` on the calendar date / date-time
strings relevant to this program: `YYYY-MM-DD`, optionally followed by a
`T` or space separator and `HH:MM` or `HH:MM:SS`.  Returns `none` on any
other string (in particular on the sentinel `TBA` and on the synthesized
`YYYY-MonthName-D` strings, which Python rejects as well). -/
def fromisoformat (s : String) : Option PyDateTime :=
  match s.toList with
  | [y1, y2, y3, y4, '-', m1, m2, '-', d1, d2] =>
    mkDate [y1, y2, y3, y4] [m1, m2] [d1, d2] 0 0 0
  | [y1, y2, y3, y4, '-', m1, m2, '-', d1, d2, sep, h1, h2, ':', n1, n2] =>
    if sep = 'T' ∨ sep = ' ' then
      mkDateTime [y1, y2, y3, y4] [m1, m2] [d1, d2] [h1, h2] [n1, n2] ['0', '0']
    else none
  | [y1, y2, y3, y4, '-', m1, m2, '-', d1, d2, sep, h1, h2, ':', n1, n2, ':', s1, s2] =>
    if sep = 'T' ∨ sep = ' ' then
      mkDateTime [y1, y2, y3, y4] [m1, m2] [d1, d2] [h1, h2] [n1, n2] [s1, s2]
    else none
  | _ => none
where
  /-- Read a block of decimal digits; fails when a character is not a digit. -/
  readNat (cs : List Char) : Option Nat :=
    if cs.all Char.isDigit then some (cs.foldl (fun acc c => 10 * acc + digitVal c) 0)
    else none
  mkDate (ys ms ds : List Char) (h n sec : Nat) : Option PyDateTime := do
    let y ← readNat ys
    let m ← readNat ms
    let d ← readNat ds
    if 1 ≤ m ∧ m ≤ 12 ∧ 1 ≤ d ∧ d ≤ daysInMonth y m then
      pure ⟨y, m, d, h, n, sec⟩
    else none
  mkDateTime (ys ms ds hs ns ss : List Char) : Option PyDateTime := do
    let h ← readNat hs
    let n ← readNat ns
    let sec ← readNat ss
    if h ≤ 23 ∧ n ≤ 59 ∧ sec ≤ 59 then mkDate ys ms ds h n sec else none

/-- `pytz.timezone(z).localize(d)`: keep the wall-clock fields and attach
the zone. -/
def localize (tzName : String) (d : PyDateTime) : AwareDateTime :=
  { dt := d, tz := tzName }

/-- Step to the next calendar day. -/
def nextDay (d : PyDateTime) : PyDateTime :=
  if d.day < daysInMonth d.year d.month then { d with day := d.day + 1 }
  else if d.month < 12 then { d with month := d.month + 1, day := 1 }
  else { d with year := d.year + 1, month := 1, day := 1 }

/-- Add a number of calendar days. -/
def addDays : Nat → PyDateTime → PyDateTime
  | 0, d => d
  | k + 1, d => addDays k (nextDay d)

/-- `d + timedelta(hours = n)` on a naive datetime (wall-clock
arithmetic with calendar carry, as Python performs on aware datetimes
without normalization). -/
def addHours (n : Nat) (d : PyDateTime) : PyDateTime :=
  let total := d.hour + n
  addDays (total / 24) { d with hour := total % 24 }

/-- `a + timedelta(hours = n)` on an aware datetime: the zone is kept. -/
def addHoursAware (n : Nat) (a : AwareDateTime) : AwareDateTime :=
  { a with dt := addHours n a.dt }

/-! ### The calendar document model and the two encoders -/

/-- A `VALARM` sub-component as emitted by `create_ics_file`:
a trigger measured in days relative to the event start, an action and a
display text. -/
structure Alarm where
  trigger_days : Int
  action : String
  description : String
deriving DecidableEq, Repr

/-- A `VEVENT` component. -/
structure ICalComponent where
  summary : String
  description : String
  location : String
  dtstart : AwareDateTime
  dtend : AwareDateTime
  uid : String
  alarm : Option Alarm
deriving DecidableEq, Repr

/-- A `VCALENDAR` document. -/
structure Calendar where
  prodid : String
  version : String
  components : List ICalComponent
deriving DecidableEq, Repr

/-- `create_ics_file(event)` (src/bot.py lines 37-70): build a calendar
with one component for the event; return `None` (here `none`) when the
date fails to parse. -/
def create_ics_file (event : Event) : Option Calendar :=
  match fromisoformat event.date with
  | none => none
  | some d =>
    let start := localize "Europe/London" d
    some
      { prodid := "-//LEGO Events UK//EN"
        version := "2.0"
        components :=
          [{ summary := event.title
             description := event.description ++ "\n\n店舖: " ++ event.store
             location := event.location
             dtstart := start
             dtend := addHoursAware 2 start
             uid := event.id.getD "unknown" ++ "@legoeventsuk"
             alarm := some { trigger_days := -1, action := "DISPLAY",
                             description := "明天有 LEGO 免費活動！" } }] }

/-- The per-entry body of the loop in `export_all_events`
(src/bot.py lines 286-309): skip the `TBA` sentinel, skip entries whose
date fails to parse, otherwise build an alarm-free component whose uid
is derived from the catalog key. -/
def batchComponent (eid : String) (ev : Event) : Option ICalComponent :=
  if ev.date == "TBA" then none
  else
    match fromisoformat ev.date with
    | none => none
    | some d =>
      let start := localize "Europe/London" d
      some
        { summary := ev.title
          description := ev.description ++ "\n店舖: " ++ ev.store
          location := ev.location
          dtstart := start
          dtend := addHoursAware 2 start
          uid := eid ++ "@legoeventsuk"
          alarm := none }

/-- `export_all_events` (src/bot.py lines 273-322), restricted to the
document it produces: one component per surviving catalog entry, in
catalog order; `none` when no entry survives (this covers both the empty
catalog early return and the `count == 0` check). -/
def export_all_events (cat : Catalog) : Option Calendar :=
  let comps := cat.filterMap (fun p => batchComponent p.1 p.2)
  if comps.length = 0 then none
  else some { prodid := "-//LEGO Events UK//EN", version := "2.0", components := comps }

/-- Spec-side component for the batch encoder, following the words of the
specification for `encodeBatch` as amended: the same summary, location,
start, end as `encodeSingle`, the uid derived from the catalog key, no
alarm, and the description joined with a single newline. -/
def specBatchComponent (eid : String) (ev : Event) : Option ICalComponent :=
  (fromisoformat ev.date).map (fun d =>
    { summary := ev.title
      description := ev.description ++ "\n店舖: " ++ ev.store
      location := ev.location
      dtstart := localize "Europe/London" d
      dtend := addHoursAware 2 (localize "Europe/London" d)
      uid := eid ++ "@legoeventsuk"
      alarm := none })

/-! ### The scraper: article blocks, the relevance filter, date synthesis,
classification (src/bot.py lines 72-145) -/

/-- An article block of the fetched document, as seen through
BeautifulSoup: the texts of its `h2` and `h3` headings in document
order, and the `href` attributes of its `a` elements in document order
(`none` when the anchor carries no `href` attribute, in which case
the subscript `['href']` raises `KeyError`). -/
structure Article where
  h2s : List String
  h3s : List String
  links : List (Option String)
deriving DecidableEq, Repr

/-- `article.find('h2') or article.find('h3')`: the first level-2
heading when one exists, else the first level-3 heading. -/
def headingOf (a : Article) : Option String :=
  match a.h2s with
  | t :: _ => some t
  | [] => a.h3s.head?

/-- Substring test on character lists (`needle in hay` for Python
strings). -/
def hasSubList (needle : List Char) : List Char → Bool
  | [] => needle.isEmpty
  | c :: rest => needle.isPrefixOf (c :: rest) || hasSubList needle rest

/-- Python's `needle in hay` on strings. -/
def strContains (hay needle : String) : Bool :=
  hasSubList needle.toList hay.toList

/-- The characters matched by the regex class `\s` (ASCII). -/
def isSpaceChar (c : Char) : Bool :=
  c = ' ' || c = '\t' || c = '\n' || c = '\x0d' || c = '\x0b' || c = '\x0c'

/-- Python's `str.strip()` (used by `get_text(strip=True)`): drop
leading and trailing whitespace. -/
def pyStrip (s : String) : String :=
  String.mk (((s.toList.dropWhile isSpaceChar).reverse.dropWhile isSpaceChar).reverse)

/-- Python's `str.lower()` on the ASCII headings this program handles. -/
def lowerStr (s : String) : String :=
  String.mk (s.toList.map Char.toLower)

/-- The alternatives of the month group of the date regex, in pattern
order. -/
def monthNames : List String :=
  ["January", "February", "March", "April", "May", "June", "July",
   "August", "September", "October", "November", "December"]

/-- Case-insensitive test that `pat` is a prefix of `text`. -/
def ciPrefixMatch : List Char → List Char → Bool
  | [], _ => true
  | _ :: _, [] => false
  | p :: ps, c :: cs => (p.toLower == c.toLower) && ciPrefixMatch ps cs

/-- Match the month alternation at the head of `cs` (case-insensitive);
on success return the matched characters verbatim and the remainder.
No full month name is a prefix of another, so pattern order is
immaterial, but the first matching alternative is taken as the regex
engine does. -/
def matchMonth (cs : List Char) : Option (List Char × List Char) :=
  match monthNames.find? (fun nm => ciPrefixMatch nm.toList cs) with
  | none => none
  | some nm => some (cs.take nm.length, cs.drop nm.length)

/-- Continue a candidate match after the day digits: `\s+` then the
month group, then `\s*`, then the optional 4-digit year group. -/
def matchTail (day : List Char) (cs : List Char) : Option (String × String × Option String) :=
  match cs with
  | [] => none
  | c :: rest =>
    if isSpaceChar c then
      match matchMonth ((c :: rest).dropWhile isSpaceChar) with
      | none => none
      | some (m, cs2) =>
        match cs2.dropWhile isSpaceChar with
        | a :: b :: c2 :: d :: _ =>
          if a.isDigit && b.isDigit && c2.isDigit && d.isDigit then
            some (String.mk day, String.mk m, some (String.mk [a, b, c2, d]))
          else some (String.mk day, String.mk m, none)
        | _ => some (String.mk day, String.mk m, none)
    else none

/-- Try the whole pattern at the current position: the greedy `\d{1,2}`
day group tries two digits first and backtracks to one. -/
def matchAt (cs : List Char) : Option (String × String × Option String) :=
  match cs with
  | [] => none
  | [c1] => if c1.isDigit then matchTail [c1] [] else none
  | c1 :: c2 :: rest =>
    if c1.isDigit && c2.isDigit then
      match matchTail [c1, c2] rest with
      | some r => some r
      | none => matchTail [c1] (c2 :: rest)
    else if c1.isDigit then matchTail [c1] (c2 :: rest)
    else none

/-- `re.search`: try the pattern at each position from the left and take
the first success. -/
def searchDate : List Char → Option (String × String × Option String)
  | [] => none
  | c :: rest =>
    match matchAt (c :: rest) with
    | some r => some r
    | none => searchDate rest

/-- The date regex applied to a heading: capture groups (day, month,
optional year) of the leftmost match. -/
def extractDate (title : String) : Option (String × String × Option String) :=
  searchDate title.toList

/-- The fixed ordered city list of the classifier. -/
def cities : List String :=
  ["London", "Manchester", "Birmingham", "Liverpool", "Glasgow", "Leeds", "Edinburgh"]

/-- The loop body of `scrape_lego_news` for one article block
(src/bot.py lines 89-140): heading extraction, the relevance filter,
date synthesis, store/location classification and link extraction.
Returns `none` when the block is skipped (no heading, filter failure,
or the `KeyError` raised by `['href']` on an anchor without the
attribute, which the per-block `except` turns into a skip).
`currentYear` stands for `str(datetime.now().year)`. -/
def parseArticle (currentYear : String) (a : Article) : Option Event :=
  match headingOf a with
  | none => none
  | some raw =>
    let title := pyStrip raw
    if !(strContains (lowerStr title) "free") || !(strContains (lowerStr title) "lego") then
      none
    else
      let dateOpt : Option String :=
        (extractDate title).map (fun g =>
          (g.2.2.getD currentYear) ++ "-" ++ g.2.1 ++ "-" ++ g.1)
      let tl := lowerStr title
      let storeLoc : String × String :=
        if strContains tl "smyths" then ("Smyths Toys", "UK Smyths Stores")
        else if strContains tl "john lewis" then ("John Lewis", "UK")
        else ("LEGO Store", "UK")
      let location :=
        match cities.find? (fun c => strContains tl (lowerStr c)) with
        | some c => c
        | none => storeLoc.2
      if a.links.head? = some none then none
      else
        some
          { id := none
            title := title
            location := location
            date := dateOpt.getD "TBA"
            date_display := dateOpt.getD "待公布"
            store := storeLoc.1
            description := "查看連結了解活動詳情"
            source := "auto_scrape"
            url := match a.links.head? with | some (some h) => h | _ => ""
            created_at := none }

/-- `scrape_lego_news` on an already-fetched document: iterate the
first 5 article blocks (`find_all('article', limit=5)`), appending the
candidate produced by each non-skipped block. -/
def scrapeLoop (currentYear : String) : List Article → List Event
  | [] => []
  | a :: rest =>
    match parseArticle currentYear a with
    | none => scrapeLoop currentYear rest
    | some ev => ev :: scrapeLoop currentYear rest

/-- `scrape_lego_news` (src/bot.py lines 72-145) on a fetched document. -/
def scrape_lego_news (currentYear : String) (doc : List Article) : List Event :=
  scrapeLoop currentYear (doc.take 5)

/-! ### Decimal rendering of naturals and the merge of `auto_scrape_task`
(src/bot.py lines 147-176) -/

/-- Little-endian decimal digits of `n`, with explicit fuel (the number
itself suffices). -/
def toDigitsRev : Nat → Nat → List Nat
  | 0, _ => []
  | fuel + 1, n => if n = 0 then [] else n % 10 :: toDigitsRev fuel (n / 10)

/-- Value of a little-endian digit list. -/
def ofDigitsRev : List Nat → Nat
  | [] => 0
  | d :: ds => d + 10 * ofDigitsRev ds

/-- A decimal digit as a character. -/
def digitChar : Nat → Char
  | 0 => '0' | 1 => '1' | 2 => '2' | 3 => '3' | 4 => '4'
  | 5 => '5' | 6 => '6' | 7 => '7' | 8 => '8' | 9 => '9'
  | _ => '*'

/-- Decimal rendering of a natural number, modelling `str(n)` /
f-string interpolation of a non-negative int. -/
def natRepr (n : Nat) : String :=
  if n = 0 then "0" else String.mk (((toDigitsRev n n).reverse).map digitChar)

/-- The id string `f"auto_..."` assigned by `auto_scrape_task`. -/
def autoKey (m : Nat) : String :=
  "auto_" ++ natRepr m

/-- The loop of `auto_scrape_task` (src/bot.py lines 160-170):
`titles` is the set of titles computed once from the starting catalog;
`count` is `new_count`.  A candidate whose title is not in `titles`
receives id `auto_` followed by the current dict size plus `new_count`
plus one, gets `created_at` set, and is inserted into the working dict;
the list of events passed to `broadcast_new_event` is returned
alongside the final dict. -/
def mergeLoop (now : String) (titles : List String) :
    List Event → Catalog → Nat → Catalog × List Event
  | [], cat, _ => (cat, [])
  | e :: rest, cat, count =>
    if titles.contains e.title then
      mergeLoop now titles rest cat count
    else
      let eid := autoKey (cat.length + count + 1)
      let e' := { e with id := some eid, created_at := some now }
      let r := mergeLoop now titles rest (dictInsert cat eid e') (count + 1)
      (r.1, e' :: r.2)

/-- The deduplicating merge performed by one run of `auto_scrape_task`
on an in-memory catalog snapshot: returns the updated catalog and the
list of added (broadcast) events.  `now` stands for
`datetime.now().isoformat()`. -/
def merge (now : String) (catalog : Catalog) (candidates : List Event) :
    Catalog × List Event :=
  mergeLoop now (titlesOf catalog) candidates catalog 0

/-! ### Concrete inputs used by counterexamples and witnesses -/

/-- A candidate event as produced by the scraper, with the given title
and every other field at the scraper's default. -/
def mkEv (t : String) : Event :=
  { id := none, title := t, location := "UK", date := "TBA", date_display := "待公布",
    store := "LEGO Store", description := "查看連結了解活動詳情", source := "auto_scrape",
    url := "", created_at := none }

def evX : Event := mkEv "X"

def evY : Event := mkEv "Y"

/-- A catalog state the merge itself produces from an empty catalog and
two fresh candidates: keys `auto_1` and `auto_3`. -/
def catReused : Catalog :=
  [("auto_1", { mkEv "P" with id := some "auto_1", created_at := some "T0" }),
   ("auto_3", { mkEv "Q" with id := some "auto_3", created_at := some "T0" })]

def evR : Event := mkEv "R"

/-- Catalog for the idempotence counterexample: `auto_3` holds the event
titled `T`. -/
def catIdem : Catalog :=
  [("auto_1", { mkEv "A" with id := some "auto_1", created_at := some "T0" }),
   ("auto_3", { mkEv "T" with id := some "auto_3", created_at := some "T0" })]

def evN : Event := mkEv "N"

def evT : Event := mkEv "T"

def evC4 : Event := { mkEv "Free LEGO build" with date := "2025-12-05", id := some "e9" }

def evC5 : Event := { mkEv "Free LEGO morning" with date := "2025-12-05", id := some "eid1" }

def catC5 : Catalog := [("k1", { mkEv "B" with date := "2025-12-05" })]

def compC5 : ICalComponent :=
  { summary := "B"
    description := "查看連結了解活動詳情\n店舖: LEGO Store"
    location := "UK"
    dtstart := localize "Europe/London" ⟨2025, 12, 5, 0, 0, 0⟩
    dtend := addHoursAware 2 (localize "Europe/London" ⟨2025, 12, 5, 0, 0, 0⟩)
    uid := "k1@legoeventsuk"
    alarm := none }

def docC5 : Calendar :=
  { prodid := "-//LEGO Events UK//EN", version := "2.0", components := [compC5] }

def aC6 : Article :=
  { h2s := ["Get a free LEGO set this 5 December in London"], h3s := [], links := [] }

/-- The candidate `parseArticle` produces from `aC6` with current year
2025. -/
def evC6 : Event :=
  { id := none
    title := "Get a free LEGO set this 5 December in London"
    location := "London"
    date := "2025-December-5"
    date_display := "2025-December-5"
    store := "LEGO Store"
    description := "查看連結了解活動詳情"
    source := "auto_scrape"
    url := ""
    created_at := none }

def aC7 : Article :=
  { h2s := ["Free LEGO at Smyths Glasgow"], h3s := [], links := [some "http://x"] }

/-- The candidate `parseArticle` produces from `aC7`. -/
def evC7 : Event :=
  { id := none
    title := "Free LEGO at Smyths Glasgow"
    location := "Glasgow"
    date := "TBA"
    date_display := "待公布"
    store := "Smyths Toys"
    description := "查看連結了解活動詳情"
    source := "auto_scrape"
    url := "http://x"
    created_at := none }

def docC8 : List Article :=
  [aC6, { h2s := ["LEGO minifigure giveaway"], h3s := [], links := [] }]

/-- An article that passes the relevance filter but whose first anchor
has no `href` attribute. -/
def aC9 : Article := { h2s := ["Free LEGO giveaway"], h3s := [], links := [none] }

def aC9b : Article :=
  { h2s := ["Free LEGO giveaway day"], h3s := [], links := [some "https://example.org/a"] }

def evS1 : Event := mkEv "S"

def evS2 : Event := { mkEv "S" with url := "u2" }

/-- The trimmed heading text of a block (empty when the block has no
heading; `parseArticle` only reaches the body when a heading exists). -/
def articleTitle (a : Article) : String :=
  pyStrip ((headingOf a).getD "")

/-! ### Supporting lemmas -/

/-- The sentinel is not a parseable date. -/
theorem fromisoformat_TBA : fromisoformat "TBA" = none := by decide

/-- The loop body of `export_all_events` agrees with the spec-side
component builder: the explicit `TBA` check is subsumed by parse
failure. -/
theorem batchComponent_eq_spec (eid : String) (ev : Event) :
    batchComponent eid ev = specBatchComponent eid ev := by
  unfold batchComponent specBatchComponent
  by_cases h : ev.date = "TBA"
  · simp [h, fromisoformat_TBA]
  · simp only [beq_iff_eq, h, if_false]
    cases hp : fromisoformat ev.date <;> simp [hp]

/-- A catalog entry is dropped by the batch encoder exactly when its
date is the sentinel or unparseable. -/
theorem batchComponent_eq_none_iff (eid : String) (ev : Event) :
    batchComponent eid ev = none ↔ (ev.date = "TBA" ∨ fromisoformat ev.date = none) := by
  unfold batchComponent
  by_cases h : ev.date = "TBA"
  · simp [h]
  · simp only [beq_iff_eq, h, if_false]
    cases hp : fromisoformat ev.date <;> simp [hp, h]

/-- The scraping loop collects exactly the non-skipped blocks, in
order. -/
theorem scrapeLoop_eq_filterMap (cy : String) (l : List Article) :
    scrapeLoop cy l = l.filterMap (parseArticle cy) := by
  induction l with
  | nil => rfl
  | cons a rest ih =>
    simp only [scrapeLoop, List.filterMap_cons]
    cases parseArticle cy a <;> simp [ih]

/-! ### Claims C4 and C5: the calendar encoders -/

/-- Claim C4 (confirmed): `create_ics_file` fails exactly when the
event's date is the sentinel `TBA` or is not parseable as an ISO
calendar date/time; on success the document has a single component with
summary the title, start the date localized to Europe/London, end the
start plus exactly 2 hours, uid the event id plus the fixed namespace
suffix, and one display alarm triggered 1 day before start. -/
theorem c4_encode_single (ev : Event) (i : String) (hid : ev.id = some i) :
    (create_ics_file ev = none ↔ (ev.date = "TBA" ∨ fromisoformat ev.date = none))
    ∧ ∀ cal, create_ics_file ev = some cal →
        ∃ d, fromisoformat ev.date = some d ∧
          cal.components =
            [{ summary := ev.title
               description := ev.description ++ "\n\n店舖: " ++ ev.store
               location := ev.location
               dtstart := localize "Europe/London" d
               dtend := addHoursAware 2 (localize "Europe/London" d)
               uid := i ++ "@legoeventsuk"
               alarm := some { trigger_days := -1, action := "DISPLAY",
                               description := "明天有 LEGO 免費活動！" } }] := by
  unfold create_ics_file
  cases hp : fromisoformat ev.date with
  | none =>
    refine ⟨by simp, ?_⟩
    intro cal hcal
    simp at hcal
  | some d =>
    constructor
    · constructor
      · intro h; simp at h
      · rintro (h | h)
        · rw [h, fromisoformat_TBA] at hp; simp at hp
        · simp at h
    · intro cal hcal
      refine ⟨d, rfl, ?_⟩
      simp only [Option.some.injEq] at hcal
      subst hcal
      simp [hid]

/-- Witness for C4 at a concrete event with a parseable date. -/
theorem c4_encode_single_witness :
    create_ics_file evC4 = none ↔ (evC4.date = "TBA" ∨ fromisoformat evC4.date = none) :=
  (c4_encode_single evC4 "e9" (by decide)).1

/-- Claim C5 counterexample: on a one-entry catalog whose event carries
a parseable date and whose id equals the catalog key, the batch
document is NOT the single-event document with the alarm removed — the
description joins the store line with a single newline while
`create_ics_file` uses a blank line. -/
theorem c5_counterexample :
    export_all_events [("eid1", evC5)] ≠
      (create_ics_file evC5).map
        (fun cal => { cal with components := cal.components.map (fun c => { c with alarm := none }) }) := by
  decide

/-- Claim C5 as amended: the batch encoder silently drops every entry
whose date is `TBA` or unparseable, returns failure exactly when no
entry survives, and otherwise emits the document-level product id and
version together with one component per surviving entry in catalog
order; each component carries the same summary, location, start and end
as `encodeSingle`, no alarm, the uid derived from the catalog key, and
a description joining the store line with a single newline (where
`encodeSingle` uses a blank line). -/
theorem c5_amended (cat : Catalog) :
    (export_all_events cat = none ↔ ∀ p ∈ cat, p.2.date = "TBA" ∨ fromisoformat p.2.date = none)
    ∧ ∀ doc, export_all_events cat = some doc →
        doc.prodid = "-//LEGO Events UK//EN" ∧ doc.version = "2.0"
        ∧ doc.components = cat.filterMap (fun p => specBatchComponent p.1 p.2)
        ∧ ∀ c ∈ doc.components, c.alarm = none := by
  have hspec : (cat.filterMap (fun p => batchComponent p.1 p.2)) =
      cat.filterMap (fun p => specBatchComponent p.1 p.2) := by
    apply List.filterMap_congr
    intro p _
    exact batchComponent_eq_spec p.1 p.2
  constructor
  · unfold export_all_events
    by_cases h : (cat.filterMap (fun p => batchComponent p.1 p.2)).length = 0
    · simp only [h, if_true, true_iff]
      rw [List.length_eq_zero] at h
      rw [List.filterMap_eq_nil_iff] at h
      intro p hp
      exact (batchComponent_eq_none_iff p.1 p.2).mp (h p hp)
    · simp only [h, if_false]
      constructor
      · intro hc; exact absurd hc (by simp)
      · intro hall
        exfalso
        apply h
        rw [List.length_eq_zero, List.filterMap_eq_nil_iff]
        intro p hp
        exact (batchComponent_eq_none_iff p.1 p.2).mpr (hall p hp)
  · intro doc hdoc
    unfold export_all_events at hdoc
    by_cases h : (cat.filterMap (fun p => batchComponent p.1 p.2)).length = 0
    · simp [h] at hdoc
    · simp only [h, if_false, Option.some.injEq] at hdoc
      subst hdoc
      refine ⟨rfl, rfl, hspec, ?_⟩
      intro c hc
      rw [hspec] at hc
      rcases List.mem_filterMap.mp hc with ⟨p, _, hpc⟩
      unfold specBatchComponent at hpc
      cases hp : fromisoformat p.2.date with
      | none => rw [hp] at hpc; exact Option.noConfusion hpc
      | some d =>
        rw [hp] at hpc
        have h2 := Option.some.inj hpc
        rw [← h2]

/-- Witness for C5 (amended) at a concrete one-entry catalog. -/
theorem c5_amended_witness :
    docC5.version = "2.0" ∧
      docC5.components = catC5.filterMap (fun p => specBatchComponent p.1 p.2) :=
  ⟨((c5_amended catC5).2 docC5 (by decide)).2.1,
   ((c5_amended catC5).2 docC5 (by decide)).2.2.1⟩

/-- Characterization of a successful `parseArticle`: the block has a
heading, the trimmed heading passes the relevance filter, and every
field of the produced candidate is determined by the heading and the
first link. -/
theorem parseArticle_some_fields (cy : String) (a : Article) (ev : Event)
    (h : parseArticle cy a = some ev) :
    ∃ raw, headingOf a = some raw
      ∧ strContains (lowerStr (pyStrip raw)) "free" = true
      ∧ strContains (lowerStr (pyStrip raw)) "lego" = true
      ∧ ev.title = pyStrip raw
      ∧ ev.date = ((extractDate (pyStrip raw)).map
          (fun g => (g.2.2.getD cy) ++ "-" ++ g.2.1 ++ "-" ++ g.1)).getD "TBA"
      ∧ ev.date_display = ((extractDate (pyStrip raw)).map
          (fun g => (g.2.2.getD cy) ++ "-" ++ g.2.1 ++ "-" ++ g.1)).getD "待公布"
      ∧ ev.store = (if strContains (lowerStr (pyStrip raw)) "smyths" then "Smyths Toys"
          else if strContains (lowerStr (pyStrip raw)) "john lewis" then "John Lewis"
          else "LEGO Store")
      ∧ ev.location = (match cities.find? (fun c => strContains (lowerStr (pyStrip raw)) (lowerStr c)) with
          | some c => c
          | none => if strContains (lowerStr (pyStrip raw)) "smyths" then "UK Smyths Stores" else "UK")
      ∧ ev.url = (match a.links.head? with | some (some u) => u | _ => "")
      ∧ a.links.head? ≠ some none := by
  unfold parseArticle at h
  cases hh : headingOf a with
  | none => rw [hh] at h; simp at h
  | some raw =>
    rw [hh] at h
    dsimp only at h
    refine ⟨raw, rfl, ?_⟩
    rcases hf : strContains (lowerStr (pyStrip raw)) "free" with _ | _
    · rw [hf] at h; simp at h
    rcases hl : strContains (lowerStr (pyStrip raw)) "lego" with _ | _
    · rw [hl] at h; simp at h
    rw [hf, hl] at h
    simp only [Bool.not_true, Bool.or_self, Bool.false_eq_true, if_false] at h
    refine ⟨rfl, rfl, ?_⟩
    rcases hlk : a.links.head? with _ | lnk
    · rw [hlk, if_neg (by simp)] at h
      replace h := Option.some.inj h
      subst h
      refine ⟨rfl, rfl, rfl, ?_, ?_, rfl, by simp⟩
      · simp [apply_ite (fun p : String × String => p.1)]
      · simp [apply_ite (fun p : String × String => p.2), ite_self]
    · cases lnk with
      | none => rw [hlk] at h; simp at h
      | some u =>
        rw [hlk, if_neg (by simp)] at h
        replace h := Option.some.inj h
        subst h
        refine ⟨rfl, rfl, rfl, ?_, ?_, rfl, by simp⟩
        · simp [apply_ite (fun p : String × String => p.1)]
        · simp [apply_ite (fun p : String × String => p.2), ite_self]

/-! ### Claims C6, C7, C8, C9: the parser/classifier -/

/-- Claim C6 (confirmed): when the heading matches the date pattern the
candidate's date is year-month-day built verbatim from the capture
groups (month kept as its matched name, day kept verbatim without
padding), with the current calendar year substituted when the year
group is absent; when there is no match the date is `TBA` and
`date_display` is the fixed pending label. -/
theorem c6_date_synthesis (cy : String) (a : Article) (ev : Event)
    (h : parseArticle cy a = some ev) :
    (∀ d m y, extractDate (articleTitle a) = some (d, m, some y) →
        ev.date = y ++ "-" ++ m ++ "-" ++ d)
    ∧ (∀ d m, extractDate (articleTitle a) = some (d, m, none) →
        ev.date = cy ++ "-" ++ m ++ "-" ++ d)
    ∧ (extractDate (articleTitle a) = none →
        ev.date = "TBA" ∧ ev.date_display = "待公布") := by
  rcases parseArticle_some_fields cy a ev h with ⟨raw, hh, _, _, _, hdate, hdisp, _⟩
  have hat : articleTitle a = pyStrip raw := by rw [articleTitle, hh]; rfl
  rw [hat]
  refine ⟨?_, ?_, ?_⟩
  · intro d m y heq; rw [hdate, heq]; rfl
  · intro d m heq; rw [hdate, heq]; rfl
  · intro heq; rw [hdate, hdisp, heq]; exact ⟨rfl, rfl⟩

/-- Witness for C6: the spec's example heading with no year yields the
current year, the month name and the unpadded day. -/
theorem c6_witness : evC6.date = "2025" ++ "-" ++ "December" ++ "-" ++ "5" :=
  (c6_date_synthesis "2025" aC6 evC6 (by decide)).2.1 "5" "December" (by decide)

/-- Claim C7 (confirmed): store defaults to LEGO Store and location to
UK; a heading containing `smyths` selects Smyths Toys and the Smyths UK
label, else `john lewis` selects John Lewis; the first city of the
fixed list found in the heading overrides the location regardless of
the store branch. -/
theorem c7_classification (cy : String) (a : Article) (ev : Event)
    (h : parseArticle cy a = some ev) :
    ev.store = (if strContains (lowerStr (articleTitle a)) "smyths" then "Smyths Toys"
        else if strContains (lowerStr (articleTitle a)) "john lewis" then "John Lewis"
        else "LEGO Store")
    ∧ ev.location =
        (match cities.find? (fun c => strContains (lowerStr (articleTitle a)) (lowerStr c)) with
         | some c => c
         | none => if strContains (lowerStr (articleTitle a)) "smyths" then "UK Smyths Stores"
             else "UK") := by
  rcases parseArticle_some_fields cy a ev h with ⟨raw, hh, _, _, _, _, _, hstore, hloc, _⟩
  have hat : articleTitle a = pyStrip raw := by rw [articleTitle, hh]; rfl
  rw [hat]
  exact ⟨hstore, hloc⟩

/-- Witness for C7: a heading with both `Smyths` and `Glasgow`. -/
theorem c7_witness : evC7.store = "Smyths Toys" ∧ evC7.location = "Glasgow" := by
  have h := c7_classification "2025" aC7 evC7 (by decide)
  refine ⟨?_, ?_⟩
  · rw [h.1]; decide
  · rw [h.2]; decide

/-- Claim C8 (confirmed): at most the first 5 article blocks are
processed; a candidate arises only from a block whose selected heading
contains both `free` and `lego` case-insensitively; skipped blocks do
not abort processing, and the result is exactly the surviving
candidates in block order. -/
theorem c8_block_filter (cy : String) (doc : List Article) :
    scrape_lego_news cy doc = (doc.take 5).filterMap (parseArticle cy)
    ∧ ∀ a ev, parseArticle cy a = some ev →
        ∃ t, headingOf a = some t
          ∧ strContains (lowerStr (pyStrip t)) "free" = true
          ∧ strContains (lowerStr (pyStrip t)) "lego" = true := by
  refine ⟨scrapeLoop_eq_filterMap cy (doc.take 5), ?_⟩
  intro a ev h
  rcases parseArticle_some_fields cy a ev h with ⟨raw, hh, hf, hl, _⟩
  exact ⟨raw, hh, hf, hl⟩

/-- Witness for C8 on a concrete two-block document (one passing, one
failing the relevance filter). -/
theorem c8_witness :
    scrape_lego_news "2025" docC8 = (docC8.take 5).filterMap (parseArticle "2025") :=
  (c8_block_filter "2025" docC8).1

/-- Claim C9 counterexample: a block that passes the relevance filter
and has a link element whose anchor carries no target is skipped
entirely — no candidate is produced, contradicting the claim that a
candidate is produced in either case. -/
theorem c9_counterexample :
    headingOf aC9 = some "Free LEGO giveaway"
    ∧ strContains (lowerStr (pyStrip "Free LEGO giveaway")) "free" = true
    ∧ strContains (lowerStr (pyStrip "Free LEGO giveaway")) "lego" = true
    ∧ aC9.links ≠ []
    ∧ parseArticle "2025" aC9 = none
    ∧ scrape_lego_news "2025" [aC9] = [] := by decide

/-- Claim C9 as amended: for a block passing the relevance filter, when
the first link has a target the candidate's url is that target, and
when the block has no link at all the candidate is produced with url
the empty string; but when the first link element lacks a target the
whole block is skipped (the `KeyError` path) and no candidate is
produced. -/
theorem c9_amended (cy : String) (a : Article) (t : String)
    (hh : headingOf a = some t)
    (hf : strContains (lowerStr (pyStrip t)) "free" = true)
    (hl : strContains (lowerStr (pyStrip t)) "lego" = true) :
    (a.links.head? = none → (parseArticle cy a).map (fun e => e.url) = some "")
    ∧ (∀ u, a.links.head? = some (some u) →
        (parseArticle cy a).map (fun e => e.url) = some u)
    ∧ (a.links.head? = some none → parseArticle cy a = none) := by
  refine ⟨?_, ?_, ?_⟩
  · intro hlk
    unfold parseArticle
    rw [hh]; dsimp only; rw [hf, hl, hlk]; rfl
  · intro u hlk
    unfold parseArticle
    rw [hh]; dsimp only; rw [hf, hl, hlk]; rfl
  · intro hlk
    unfold parseArticle
    rw [hh]; dsimp only; rw [hf, hl, hlk]; rfl

/-- Witness for C9 (amended) at a block whose first link has a target. -/
theorem c9_amended_witness :
    (parseArticle "2025" aC9b).map (fun e => e.url) = some "https://example.org/a" :=
  (c9_amended "2025" aC9b "Free LEGO giveaway day" (by decide) (by decide)
    (by decide)).2.1 "https://example.org/a" (by decide)

/-! ### Properties of the decimal rendering and of `dictInsert` -/

theorem ofDigitsRev_toDigitsRev : ∀ fuel n, n ≤ fuel → ofDigitsRev (toDigitsRev fuel n) = n := by
  intro fuel
  induction fuel with
  | zero =>
    intro n h
    have h0 : n = 0 := Nat.le_zero.mp h
    subst h0; rfl
  | succ f ih =>
    intro n h
    by_cases h0 : n = 0
    · subst h0; rfl
    · rw [toDigitsRev, if_neg h0, ofDigitsRev]
      have hdiv : n / 10 ≤ f := by
        have := Nat.div_lt_self (Nat.pos_of_ne_zero h0) (by norm_num : (1 : Nat) < 10)
        omega
      rw [ih _ hdiv]
      exact Nat.mod_add_div n 10

theorem toDigitsRev_lt_ten : ∀ fuel n d, d ∈ toDigitsRev fuel n → d < 10 := by
  intro fuel
  induction fuel with
  | zero => intro n d h; simp [toDigitsRev] at h
  | succ f ih =>
    intro n d h
    rw [toDigitsRev] at h
    by_cases h0 : n = 0
    · rw [if_pos h0] at h; simp at h
    · rw [if_neg h0] at h
      rcases List.mem_cons.mp h with h1 | h1
      · subst h1; exact Nat.mod_lt _ (by norm_num)
      · exact ih _ _ h1

theorem digitChar_inj : ∀ a b, a < 10 → b < 10 → digitChar a = digitChar b → a = b := by
  intro a b ha hb
  interval_cases a <;> interval_cases b <;> decide

theorem map_digitChar_inj : ∀ l1 l2 : List Nat, (∀ d ∈ l1, d < 10) → (∀ d ∈ l2, d < 10) →
    l1.map digitChar = l2.map digitChar → l1 = l2 := by
  intro l1
  induction l1 with
  | nil =>
    intro l2 _ _ h
    cases l2 with
    | nil => rfl
    | cons b t2 => simp at h
  | cons a t ih =>
    intro l2 h1 h2 h
    cases l2 with
    | nil => simp at h
    | cons b t2 =>
      simp only [List.map_cons, List.cons.injEq] at h
      have hab : a = b := digitChar_inj a b (h1 a (by simp)) (h2 b (by simp)) h.1
      subst hab
      rw [ih t2 (fun d hd => h1 d (by simp [hd])) (fun d hd => h2 d (by simp [hd])) h.2]

/-- Decimal rendering is injective: distinct numbers give distinct id
strings. -/
theorem natRepr_inj : ∀ m n : Nat, natRepr m = natRepr n → m = n := by
  have key : ∀ n : Nat, n ≠ 0 → natRepr n ≠ "0" := by
    intro n hn hcontra
    unfold natRepr at hcontra
    rw [if_neg hn] at hcontra
    have hdata : ((toDigitsRev n n).reverse.map digitChar) = ['0'] :=
      congrArg String.data hcontra
    have h0 : (toDigitsRev n n).reverse = [0] := by
      apply map_digitChar_inj _ [0]
      · intro d hd; exact toDigitsRev_lt_ten n n d (List.mem_reverse.mp hd)
      · intro d hd; simp at hd; omega
      · exact hdata
    have hrev : toDigitsRev n n = [0] := by
      have := congrArg List.reverse h0
      simpa using this
    have := ofDigitsRev_toDigitsRev n n le_rfl
    rw [hrev] at this
    simp [ofDigitsRev] at this
    exact hn this.symm
  intro m n h
  by_cases hm : m = 0 <;> by_cases hn : n = 0
  · omega
  · exfalso
    subst hm
    unfold natRepr at h
    rw [if_pos rfl] at h
    exact key n hn h.symm
  · exfalso
    subst hn
    unfold natRepr at h
    rw [if_pos rfl] at h
    exact key m hm h
  · unfold natRepr at h
    rw [if_neg hm, if_neg hn] at h
    have hdata : ((toDigitsRev m m).reverse.map digitChar) =
        ((toDigitsRev n n).reverse.map digitChar) := congrArg String.data h
    have heq : (toDigitsRev m m).reverse = (toDigitsRev n n).reverse := by
      apply map_digitChar_inj
      · intro d hd; exact toDigitsRev_lt_ten m m d (List.mem_reverse.mp hd)
      · intro d hd; exact toDigitsRev_lt_ten n n d (List.mem_reverse.mp hd)
      · exact hdata
    have hdig : toDigitsRev m m = toDigitsRev n n := List.reverse_injective heq
    have h1 := ofDigitsRev_toDigitsRev m m le_rfl
    have h2 := ofDigitsRev_toDigitsRev n n le_rfl
    rw [hdig] at h1
    omega

/-- The id strings are injective in the number. -/
theorem autoKey_inj : ∀ m n : Nat, autoKey m = autoKey n → m = n := by
  intro m n h
  unfold autoKey at h
  have hdata := congrArg String.data h
  rw [String.data_append _ _, String.data_append _ _] at hdata
  exact natRepr_inj m n (String.ext (List.append_cancel_left hdata))

theorem keyMem_iff_any (cat : Catalog) (k : String) :
    keyMem cat k ↔ cat.any (fun p => p.1 == k) = true := by
  unfold keyMem
  simp [List.any_eq_true]

theorem dictInsert_of_fresh (cat : Catalog) (k : String) (v : Event)
    (h : ¬ keyMem cat k) : dictInsert cat k v = cat ++ [(k, v)] := by
  unfold dictInsert
  rw [if_neg]
  intro hc
  exact h ((keyMem_iff_any cat k).mpr hc)

theorem length_le_dictInsert (cat : Catalog) (k : String) (v : Event) :
    cat.length ≤ (dictInsert cat k v).length := by
  unfold dictInsert
  split
  · rw [List.length_map]
  · rw [List.length_append]; omega

theorem mem_dictInsert_self (cat : Catalog) (k : String) (v : Event) :
    (k, v) ∈ dictInsert cat k v := by
  unfold dictInsert
  split
  · next hany =>
    rcases List.any_eq_true.mp hany with ⟨p, hp, hpk⟩
    exact List.mem_map.mpr ⟨p, hp, by simp [hpk]⟩
  · exact List.mem_append_right _ (by simp)

theorem mem_dictInsert_of_ne (cat : Catalog) (k k' : String) (v v' : Event)
    (h : (k', v') ∈ cat) (hne : k' ≠ k) : (k', v') ∈ dictInsert cat k v := by
  unfold dictInsert
  split
  · exact List.mem_map.mpr ⟨(k', v'), h, by simp [hne]⟩
  · exact List.mem_append_left _ h

/-! ### Structural lemmas about the merge loop -/

theorem mergeLoop_nil (now : String) (titles : List String) (cat : Catalog) (count : Nat) :
    mergeLoop now titles [] cat count = (cat, []) := rfl

theorem mergeLoop_cons (now : String) (titles : List String) (e : Event) (rest : List Event)
    (cat : Catalog) (count : Nat) :
    mergeLoop now titles (e :: rest) cat count =
      if titles.contains e.title then mergeLoop now titles rest cat count
      else
        ((mergeLoop now titles rest
            (dictInsert cat (autoKey (cat.length + count + 1))
              { e with id := some (autoKey (cat.length + count + 1)), created_at := some now })
            (count + 1)).1,
         { e with id := some (autoKey (cat.length + count + 1)), created_at := some now } ::
           (mergeLoop now titles rest
            (dictInsert cat (autoKey (cat.length + count + 1))
              { e with id := some (autoKey (cat.length + count + 1)), created_at := some now })
            (count + 1)).2) := rfl

theorem mergeLoop_length_ge (now : String) (titles : List String) :
    ∀ cands cat count, cat.length ≤ (mergeLoop now titles cands cat count).1.length := by
  intro cands
  induction cands with
  | nil => intro cat count; exact le_rfl
  | cons e rest ih =>
    intro cat count
    rw [mergeLoop_cons]
    by_cases hc : titles.contains e.title
    · rw [if_pos hc]; exact ih cat count
    · rw [if_neg hc]
      exact le_trans (length_le_dictInsert cat _ _) (ih _ _)

/-- Entries whose key cannot collide with any id assigned later survive
the whole loop. -/
theorem mergeLoop_mem_preserved (now : String) (titles : List String) :
    ∀ cands cat count k v,
      (k, v) ∈ cat → (∀ m, cat.length + count + 1 ≤ m → k ≠ autoKey m) →
      (k, v) ∈ (mergeLoop now titles cands cat count).1 := by
  intro cands
  induction cands with
  | nil => intro cat count k v hm _; exact hm
  | cons c rest ih =>
    intro cat count k v hm hk
    rw [mergeLoop_cons]
    by_cases hc : titles.contains c.title
    · rw [if_pos hc]; exact ih cat count k v hm hk
    · rw [if_neg hc]
      apply ih _ _ k v
      · exact mem_dictInsert_of_ne _ _ _ _ _ hm (hk _ (by omega))
      · intro m hmge
        apply hk
        have := length_le_dictInsert cat
          (autoKey (cat.length + count + 1))
          { c with id := some (autoKey (cat.length + count + 1)), created_at := some now }
        omega

/-- The ids of the added events are of the `auto_` form, with strictly
increasing numbers all at least the starting size plus count plus 1. -/
theorem mergeLoop_id_nums (now : String) (titles : List String) :
    ∀ cands cat count, ∃ nums : List Nat,
      (mergeLoop now titles cands cat count).2.map (fun e => e.id) =
        nums.map (fun m => some (autoKey m))
      ∧ List.Chain' (· < ·) nums
      ∧ ∀ m ∈ nums, cat.length + count + 1 ≤ m := by
  intro cands
  induction cands with
  | nil => intro cat count; exact ⟨[], rfl, List.chain'_nil, by simp⟩
  | cons c rest ih =>
    intro cat count
    rw [mergeLoop_cons]
    by_cases hc : titles.contains c.title
    · rw [if_pos hc]; exact ih cat count
    · rw [if_neg hc]
      rcases ih (dictInsert cat (autoKey (cat.length + count + 1))
          { c with id := some (autoKey (cat.length + count + 1)), created_at := some now })
          (count + 1) with ⟨nums, hmap, hchain, hbound⟩
      have hlen := length_le_dictInsert cat
        (autoKey (cat.length + count + 1))
        { c with id := some (autoKey (cat.length + count + 1)), created_at := some now }
      refine ⟨(cat.length + count + 1) :: nums, ?_, ?_, ?_⟩
      · simp only [List.map_cons, hmap]
      · rw [List.chain'_cons']
        refine ⟨?_, hchain⟩
        intro y hy
        have := hbound y (List.mem_of_mem_head? hy)
        omega
      · intro m hm
        rcases List.mem_cons.mp hm with h1 | h1
        · omega
        · have := hbound m h1
          omega

/-- Assigned ids in closed form when no assigned key collides with a
key of the working catalog: the `j`-th added id is `auto_` of the
starting size plus count plus `2 j + 1`. -/
theorem mergeLoop_ids (now : String) (titles : List String) :
    ∀ cands cat count,
      (∀ m, keyMem cat (autoKey m) → m ≤ cat.length + count) →
      ∀ j e, (mergeLoop now titles cands cat count).2.get? j = some e →
        e.id = some (autoKey (cat.length + count + 2 * j + 1)) := by
  intro cands
  induction cands with
  | nil => intro cat count _ j e h; rw [mergeLoop_nil] at h; simp at h
  | cons c rest ih =>
    intro cat count hinv j e h
    rw [mergeLoop_cons] at h
    by_cases hc : titles.contains c.title
    · rw [if_pos hc] at h
      exact ih cat count hinv j e h
    · rw [if_neg hc] at h
      have hfresh : ¬ keyMem cat (autoKey (cat.length + count + 1)) := by
        intro hk
        have := hinv _ hk
        omega
      have hins := dictInsert_of_fresh cat (autoKey (cat.length + count + 1))
        { c with id := some (autoKey (cat.length + count + 1)), created_at := some now } hfresh
      cases j with
      | zero =>
        simp only [List.get?] at h
        have he := Option.some.inj h
        rw [← he]
      | succ j' =>
        simp only [List.get?] at h
        have hinv' : ∀ m,
            keyMem (dictInsert cat (autoKey (cat.length + count + 1))
              { c with id := some (autoKey (cat.length + count + 1)), created_at := some now })
              (autoKey m) →
            m ≤ (dictInsert cat (autoKey (cat.length + count + 1))
              { c with id := some (autoKey (cat.length + count + 1)), created_at := some now }).length
              + (count + 1) := by
          intro m hk
          rw [hins] at hk
          rw [hins, List.length_append]
          rcases hk with ⟨p, hp, hpk⟩
          rcases List.mem_append.mp hp with hpc | hpc
          · have := hinv m ⟨p, hpc, hpk⟩
            simp
            omega
          · simp only [List.mem_singleton] at hpc
            rw [hpc] at hpk
            have hkey : autoKey (cat.length + count + 1) = autoKey m := hpk
            have := autoKey_inj _ _ hkey
            simp only [List.length_singleton]
            omega
        have := ih _ _ hinv' j' e h
        rw [hins, List.length_append] at this
        rw [show cat.length + count + 2 * (j' + 1) + 1 =
          cat.length + 1 + (count + 1) + 2 * j' + 1 from by omega]
        simpa using this

/-- Splitting the candidate list splits the loop: the second half runs
on the catalog and count produced by the first half. -/
theorem mergeLoop_append (now : String) (titles : List String) :
    ∀ xs ys cat count,
      mergeLoop now titles (xs ++ ys) cat count =
        ((mergeLoop now titles ys (mergeLoop now titles xs cat count).1
            (count + (mergeLoop now titles xs cat count).2.length)).1,
         (mergeLoop now titles xs cat count).2 ++
           (mergeLoop now titles ys (mergeLoop now titles xs cat count).1
            (count + (mergeLoop now titles xs cat count).2.length)).2) := by
  intro xs
  induction xs with
  | nil =>
    intro ys cat count
    simp [mergeLoop_nil]
  | cons x xs ih =>
    intro ys cat count
    rw [List.cons_append, mergeLoop_cons, mergeLoop_cons]
    by_cases hc : titles.contains x.title
    · rw [if_pos hc, if_pos hc]
      exact ih ys cat count
    · rw [if_neg hc, if_neg hc]
      rw [ih ys (dictInsert cat (autoKey (cat.length + count + 1))
            { x with id := some (autoKey (cat.length + count + 1)), created_at := some now })
          (count + 1)]
      set L := (mergeLoop now titles xs
          (dictInsert cat (autoKey (cat.length + count + 1))
            { x with id := some (autoKey (cat.length + count + 1)), created_at := some now })
          (count + 1)).2.length with hLdef
      rw [List.length_cons, ← hLdef]
      rw [show count + (L + 1) = count + 1 + L from by omega]
      rw [List.cons_append]

/-- Two distinct members both satisfying the predicate force a count of
at least two. -/
theorem two_mem_le_countP (p : String × Event → Bool) (l : List (String × Event))
    (a b : String × Event) (ha : a ∈ l) (hb : b ∈ l) (hab : a ≠ b)
    (hpa : p a = true) (hpb : p b = true) : 2 ≤ l.countP p := by
  induction l with
  | nil => exact absurd ha (List.not_mem_nil a)
  | cons x t ih =>
    rcases List.mem_cons.mp ha with ha1 | ha1
    · subst ha1
      have hb' : b ∈ t := by
        rcases List.mem_cons.mp hb with hb1 | hb1
        · exact absurd hb1 (Ne.symm hab)
        · exact hb1
      rw [List.countP_cons_of_pos p _ hpa]
      have := List.countP_pos_iff.mpr ⟨b, hb', hpb⟩
      omega
    · rcases List.mem_cons.mp hb with hb1 | hb1
      · subst hb1
        rw [List.countP_cons_of_pos p _ hpb]
        have := List.countP_pos_iff.mpr ⟨a, ha1, hpa⟩
        omega
      · have := ih ha1 hb1
        rw [List.countP_cons]
        omega

/-- `List.contains` on titles agrees with membership. -/
theorem titles_contains_iff (l : List String) (s : String) :
    l.contains s = true ↔ s ∈ l := by
  simp

/-! ### Claims C1, C2, C3, C10: the deduplicating merge -/

/-- Claim C1 counterexample: merging two fresh-titled candidates into an
empty catalog assigns ids `auto_1` and `auto_3`; the claim predicts
`auto_2` for the second added event (k = 1, catalogSizeBefore = 0). -/
theorem c1_counterexample :
    ((merge "T0" [] [evX, evY]).2.map (fun e => e.id) = [some "auto_1", some "auto_3"])
    ∧ ("auto_3" : String) ≠ "auto_2" := by decide

/-- Claim C1 as amended: the id counter adds the size of the working
dict — which grows as events are inserted — to `new_count`, so when no
assigned id collides with an existing key (in particular when the
starting catalog has no `auto_`-numbered key) the k-th added event gets
id `auto_` of catalogSizeBefore plus `2 k + 1`; when exactly one event
is added its id is `auto_` of catalogSizeBefore plus one, as the claim
states. -/
theorem c1_amended (now : String) (cat : Catalog) (cands : List Event)
    (hfresh : ∀ m, ¬ keyMem cat (autoKey m)) :
    (∀ j e, (merge now cat cands).2.get? j = some e →
        e.id = some (autoKey (cat.length + 2 * j + 1)))
    ∧ (∀ e, (merge now cat cands).2 = [e] → e.id = some (autoKey (cat.length + 1))) := by
  have base := mergeLoop_ids now (titlesOf cat) cands cat 0
    (fun m hk => absurd hk (hfresh m))
  constructor
  · intro j e h
    unfold merge at h
    have := base j e h
    rw [show cat.length + 0 + 2 * j + 1 = cat.length + 2 * j + 1 from by omega] at this
    exact this
  · intro e h
    unfold merge at h
    have h0 : (mergeLoop now (titlesOf cat) cands cat 0).2.get? 0 = some e := by
      rw [h]; rfl
    have := base 0 e h0
    rw [show cat.length + 0 + 2 * 0 + 1 = cat.length + 1 from by omega] at this
    exact this

/-- Witness for C1 (amended) on an empty catalog and two fresh
candidates: the second added event (j = 1) has id `auto_3`. -/
theorem c1_amended_witness :
    (merge "T0" [] [evX, evY]).2.get? 1 =
      some ({ evY with id := some "auto_3", created_at := some "T0" })
    ∧ ({ evY with id := some "auto_3", created_at := some "T0" } : Event).id =
        some (autoKey (List.length ([] : Catalog) + 2 * 1 + 1)) :=
  ⟨by decide,
   (c1_amended "T0" [] [evX, evY] (fun m hk => by simp [keyMem] at hk)).1 1
     { evY with id := some "auto_3", created_at := some "T0" } (by decide)⟩

/-- Claim C2 evaluated at the failing input: on the catalog with keys
`auto_1` and `auto_3` (itself the result of merging two candidates into
an empty catalog), a single fresh candidate is assigned id `auto_3`,
which is already a key of the starting catalog; the existing `auto_3`
event (titled `Q`) is overwritten and disappears from the catalog. -/
theorem c2_id_reuse :
    (merge "T1" catReused [evR]).2.map (fun e => e.id) = [some "auto_3"]
    ∧ keyMem catReused "auto_3"
    ∧ titlesOf catReused = ["P", "Q"]
    ∧ titlesOf (merge "T1" catReused [evR]).1 = ["P", "R"] := by decide

/-- Claim C3 evaluated at the failing input: starting from the catalog
with keys `auto_1`, `auto_3` (value at `auto_3` titled `T`) and the
candidate list `[N, T]`, the first merge overwrites the `T`-titled
event, so running the same merge again adds one event (not zero) and
changes the catalog. -/
theorem c3_not_idempotent :
    ((merge "T2" (merge "T2" catIdem [evN, evT]).1 [evN, evT]).2.length = 1)
    ∧ (merge "T2" (merge "T2" catIdem [evN, evT]).1 [evN, evT]).1 ≠
        (merge "T2" catIdem [evN, evT]).1 := by decide

/-- Claim C10 (confirmed): the known-title set is computed once from the
starting catalog; two candidates sharing a fresh title are both added
(at least two added events carry that title), the added ids are
pairwise distinct, and the resulting catalog holds at least two entries
with that title. -/
theorem c10_dedup_set_fixed (now : String) (cat : Catalog) (l1 l2 l3 : List Event)
    (c1 c2 : Event) (ht : c1.title = c2.title) (hfresh : c1.title ∉ titlesOf cat) :
    2 ≤ ((merge now cat (l1 ++ [c1] ++ l2 ++ [c2] ++ l3)).2.countP
        (fun e => e.title == c1.title))
    ∧ ((merge now cat (l1 ++ [c1] ++ l2 ++ [c2] ++ l3)).2.map (fun e => e.id)).Nodup
    ∧ 2 ≤ ((merge now cat (l1 ++ [c1] ++ l2 ++ [c2] ++ l3)).1.countP
        (fun p => p.2.title == c1.title)) := by
  have hft1 : (titlesOf cat).contains c1.title = false := by
    cases h' : (titlesOf cat).contains c1.title
    · rfl
    · exact absurd ((titles_contains_iff _ _).mp h') hfresh
  have hft2 : (titlesOf cat).contains c2.title = false := by rw [← ht]; exact hft1
  have hshape : l1 ++ [c1] ++ l2 ++ [c2] ++ l3 = l1 ++ (c1 :: (l2 ++ (c2 :: l3))) := by
    simp [List.append_assoc]
  rw [hshape]
  refine ⟨?_, ?_, ?_⟩
  · unfold merge
    rw [mergeLoop_append now (titlesOf cat) l1 (c1 :: (l2 ++ (c2 :: l3))) cat 0]
    rw [mergeLoop_cons]
    rw [if_neg (show ¬ (titlesOf cat).contains c1.title = true by rw [hft1]; exact Bool.false_ne_true)]
    rw [mergeLoop_append now (titlesOf cat) l2 (c2 :: l3)]
    rw [mergeLoop_cons]
    rw [if_neg (show ¬ (titlesOf cat).contains c2.title = true by rw [hft2]; exact Bool.false_ne_true)]
    simp only [List.countP_append, List.countP_cons]
    dsimp only
    rw [ht]
    simp only [beq_self_eq_true, if_true]
    omega
  · unfold merge
    rcases mergeLoop_id_nums now (titlesOf cat) (l1 ++ (c1 :: (l2 ++ (c2 :: l3)))) cat 0
      with ⟨nums, hmap, hchain, _⟩
    rw [hmap]
    have hnodup : nums.Nodup :=
      (List.chain'_iff_pairwise.mp hchain).imp (fun h => Nat.ne_of_lt h)
    exact hnodup.map (fun a b hab => autoKey_inj a b (Option.some.inj hab))
  · unfold merge
    rw [mergeLoop_append now (titlesOf cat) l1 (c1 :: (l2 ++ (c2 :: l3))) cat 0]
    rw [mergeLoop_cons]
    rw [if_neg (show ¬ (titlesOf cat).contains c1.title = true by rw [hft1]; exact Bool.false_ne_true)]
    rw [mergeLoop_append now (titlesOf cat) l2 (c2 :: l3)]
    rw [mergeLoop_cons]
    rw [if_neg (show ¬ (titlesOf cat).contains c2.title = true by rw [hft2]; exact Bool.false_ne_true)]
    set T := titlesOf cat with hT
    set A := mergeLoop now T l1 cat 0 with hA
    set m1 := A.1.length + (0 + A.2.length) + 1 with hm1
    set e1 : Event := { c1 with id := some (autoKey m1), created_at := some now } with he1
    set cat2 := dictInsert A.1 (autoKey m1) e1 with hcat2
    set B := mergeLoop now T l2 cat2 (0 + A.2.length + 1) with hB
    set m2 := B.1.length + (0 + A.2.length + 1 + B.2.length) + 1 with hm2
    set e2 : Event := { c2 with id := some (autoKey m2), created_at := some now } with he2
    set cat4 := dictInsert B.1 (autoKey m2) e2 with hcat4
    have hA1 : cat.length ≤ A.1.length := by
      rw [hA]; exact mergeLoop_length_ge now T l1 cat 0
    have hc2len : A.1.length ≤ cat2.length := by
      rw [hcat2]; exact length_le_dictInsert A.1 _ _
    have hBlen : cat2.length ≤ B.1.length := by
      rw [hB]; exact mergeLoop_length_ge now T l2 cat2 _
    have hc4len : B.1.length ≤ cat4.length := by
      rw [hcat4]; exact length_le_dictInsert B.1 _ _
    have hne12 : autoKey m1 ≠ autoKey m2 := by
      intro heq
      have h12 := autoKey_inj _ _ heq
      omega
    have s1 : (autoKey m1, e1) ∈ cat2 := by
      rw [hcat2]; exact mem_dictInsert_self A.1 (autoKey m1) e1
    have s2 : (autoKey m1, e1) ∈ B.1 := by
      rw [hB]
      apply mergeLoop_mem_preserved now T l2 cat2 (0 + A.2.length + 1) _ _ s1
      intro m hm heq
      have := autoKey_inj _ _ heq
      omega
    have s3 : (autoKey m1, e1) ∈ cat4 := by
      rw [hcat4]
      exact mem_dictInsert_of_ne B.1 (autoKey m2) (autoKey m1) e2 e1 s2 hne12
    have s4 : (autoKey m1, e1) ∈
        (mergeLoop now T l3 cat4 (0 + A.2.length + 1 + B.2.length + 1)).1 := by
      apply mergeLoop_mem_preserved now T l3 cat4 _ _ _ s3
      intro m hm heq
      have := autoKey_inj _ _ heq
      omega
    have t1 : (autoKey m2, e2) ∈ cat4 := by
      rw [hcat4]; exact mem_dictInsert_self B.1 (autoKey m2) e2
    have t2 : (autoKey m2, e2) ∈
        (mergeLoop now T l3 cat4 (0 + A.2.length + 1 + B.2.length + 1)).1 := by
      apply mergeLoop_mem_preserved now T l3 cat4 _ _ _ t1
      intro m hm heq
      have := autoKey_inj _ _ heq
      omega
    apply two_mem_le_countP _ _ (autoKey m1, e1) (autoKey m2, e2) s4 t2
    · intro h
      exact hne12 (congrArg Prod.fst h)
    · show (e1.title == c1.title) = true
      rw [he1]
      simp
    · show (e2.title == c1.title) = true
      rw [he2, ht]
      simp

/-- Witness for C10: two candidates with the same fresh title `S`
merged into the empty catalog are both added. -/
theorem c10_witness :
    2 ≤ ((merge "T3" [] ([] ++ [evS1] ++ [] ++ [evS2] ++ [])).2.countP
        (fun e => e.title == evS1.title)) :=
  (c10_dedup_set_fixed "T3" [] [] [] [] evS1 evS2 rfl (by simp [titlesOf])).1

end LegoBot
